import Mathlib

/-!
Verification of the live duplex audio session engine of W3J Power Suite
(`src/App.tsx`, `LiveAgent` component): the capture pipeline, playback
scheduler, interruption path, turn/transcript state machine and the
session lifecycle (`startConversation` / `stopConversation`), embedded
shallowly as pure state-transition functions over rational clock times.
-/

namespace W3J

/-- Speaker tag of a transcript line (`LiveTranscriptEntry.speaker` in
`src/App.tsx`). -/
inductive Speaker where
  | user
  | model
  | system
deriving DecidableEq, Repr

/-- A transcript line, mirroring `LiveTranscriptEntry` in `src/App.tsx`
(`{ speaker, text, timestamp }`). -/
structure LiveTranscriptEntry where
  speaker : Speaker
  text : String
  timestamp : String
deriving DecidableEq, Repr

/-- A scheduled playback source (`AudioBufferSourceNode` after
`source.start(nextStartTimeRef.current)`): its scheduled start time and
the decoded buffer's duration, in seconds. -/
structure PlaybackHandle where
  start : ℚ
  duration : ℚ
deriving DecidableEq, Repr

/-- The `conversationState` React state: `'idle' | 'listening' | 'speaking'`. -/
inductive ConvState where
  | idle
  | listening
  | speaking
deriving DecidableEq, Repr

/-- The mutable state of the `LiveAgent` component that the live session
touches: the React state hooks and the refs.  `scheduledLog` and
`stoppedLog` are history variables recording, in order, every
`source.start(...)` call and every forced `source.stop()` call; they let
us state ordering properties without changing the behaviour of any
transition. -/
structure AgentState where
  isSessionActive : Bool
  conversationState : ConvState
  hasSessionPromise : Bool
  hasMediaStream : Bool
  inputCtxOpen : Bool
  outputCtxOpen : Bool
  nextStartTime : ℚ
  sources : List PlaybackHandle
  scheduledLog : List PlaybackHandle
  stoppedLog : List PlaybackHandle
  transcript : List LiveTranscriptEntry
  isNewTurn : Bool
deriving DecidableEq, Repr

/-- The component's state before any session: all refs null, contexts
absent, `nextStartTimeRef.current = 0`, `isNewTurnRef.current = true`. -/
def init0 : AgentState where
  isSessionActive := false
  conversationState := .idle
  hasSessionPromise := false
  hasMediaStream := false
  inputCtxOpen := false
  outputCtxOpen := false
  nextStartTime := 0
  sources := []
  scheduledLog := []
  stoppedLog := []
  transcript := []
  isNewTurn := true

/-- The audio branch of `onmessage`: on inline audio data, set
`conversationState` to `'speaking'`; if the output context is missing or
closed, return; otherwise `nextStartTime := max(nextStartTime, outCtx.currentTime)`,
start a source at `nextStartTime`, then `nextStartTime += buffer.duration`
and add the source to `sourcesRef`.  `t` is `outCtx.currentTime` at the
moment the chunk is handled and `d` the decoded buffer's duration. -/
def scheduleChunk (t d : ℚ) (s : AgentState) : AgentState :=
  let s0 := { s with conversationState := .speaking }
  if s0.outputCtxOpen then
    let st := max s0.nextStartTime t
    let h : PlaybackHandle := { start := st, duration := d }
    { s0 with nextStartTime := st + d
              sources := s0.sources ++ [h]
              scheduledLog := s0.scheduledLog ++ [h] }
  else s0

/-- The `outputTranscription` branch of `onmessage`: if `isNewTurnRef` is
set, clear it and append a fresh `'model'` entry; else if the last entry's
speaker is `'model'`, append the new text to that entry's text (keeping
its timestamp); else append a fresh `'model'` entry.  `ts` is the
freshly formatted timestamp string. -/
def appendDelta (txt ts : String) (s : AgentState) : AgentState :=
  if s.isNewTurn then
    { s with isNewTurn := false
             transcript := s.transcript ++ [⟨.model, txt, ts⟩] }
  else
    match s.transcript.getLast? with
    | some last =>
        if last.speaker = .model then
          { s with transcript :=
              s.transcript.dropLast ++ [⟨last.speaker, last.text ++ txt, last.timestamp⟩] }
        else
          { s with transcript := s.transcript ++ [⟨.model, txt, ts⟩] }
    | none => { s with transcript := s.transcript ++ [⟨.model, txt, ts⟩] }

/-- The `interrupted` branch of `onmessage`: stop every source in
`sourcesRef`, clear the set, set `nextStartTimeRef.current = 0` and go
back to `'listening'`.  The forced stops are recorded in `stoppedLog`. -/
def handleInterrupted (s : AgentState) : AgentState :=
  { s with sources := []
           stoppedLog := s.stoppedLog ++ s.sources
           nextStartTime := 0
           conversationState := .listening }

/-- The `turnComplete` branch of `onmessage`: set `isNewTurnRef.current = true`. -/
def handleTurnComplete (s : AgentState) : AgentState :=
  { s with isNewTurn := true }

/-- The fields of a `LiveServerMessage` that `onmessage` can react to,
plus the ambient output-context clock at the moment the message is
handled.  `inputTranscription` is carried by the wire type but never read
by the handler. -/
structure ServerMessage where
  clock : ℚ
  audioDuration : Option ℚ
  outputTranscription : Option (String × String)
  inputTranscription : Option String
  interrupted : Bool
  turnComplete : Bool

/-- The `onmessage` callback: the four branches run in source order —
inline audio, output transcription, interruption, turn completion.  The
`inputTranscription` field is never consulted. -/
def onmessage (m : ServerMessage) (s : AgentState) : AgentState :=
  let s1 := match m.audioDuration with
    | some d => scheduleChunk m.clock d s
    | none => s
  let s2 := match m.outputTranscription with
    | some p => appendDelta p.1 p.2 s1
    | none => s1
  let s3 := if m.interrupted then handleInterrupted s2 else s2
  if m.turnComplete then handleTurnComplete s3 else s3

/-- A single-payload server event, the event view of `ServerMessage`
used by the spec: each event is a message carrying exactly one payload.
`audioChunk c d` is an audio chunk of decoded duration `d` handled when
the output clock reads `c`; `interrupted c` is an interruption arriving
when the output clock reads `c` (the handler can read that clock but, in
the source, does not). -/
inductive ServerEvent where
  | audioChunk (clock duration : ℚ)
  | transcriptDelta (text timestamp : String)
  | interrupted (clock : ℚ)
  | turnComplete

/-- The message carrying a single event. -/
def ServerEvent.toMessage : ServerEvent → ServerMessage
  | .audioChunk c d => ⟨c, some d, none, none, false, false⟩
  | .transcriptDelta txt ts => ⟨0, none, some (txt, ts), none, false, false⟩
  | .interrupted c => ⟨c, none, none, none, true, false⟩
  | .turnComplete => ⟨0, none, none, none, false, true⟩

/-- Handling one single-payload server event. -/
def step (s : AgentState) (e : ServerEvent) : AgentState :=
  onmessage e.toMessage s

/-- Handling a sequence of server events in arrival order. -/
def run (s : AgentState) (es : List ServerEvent) : AgentState :=
  es.foldl step s

/-- The pure scheduling recurrence: from a given `nextStartTime`, each
chunk `(clock, duration)` is started at `max nextStartTime clock` and
`nextStartTime` advances by the duration.  Returns the handles in
schedule order. -/
def scheduleStarts (nst : ℚ) : List (ℚ × ℚ) → List PlaybackHandle
  | [] => []
  | p :: rest =>
      let st := max nst p.1
      { start := st, duration := p.2 } :: scheduleStarts (st + p.2) rest

/-- The synchronous prefix of `startConversation`, run before the mic is
requested: flip `isSessionActive`, set `conversationState` to
`'listening'`, clear the transcript, reset `nextStartTimeRef` and
`isNewTurnRef`. -/
def startInit (s : AgentState) : AgentState :=
  { s with isSessionActive := true
           conversationState := .listening
           transcript := []
           nextStartTime := 0
           isNewTurn := true }

/-- `stopConversation`: close the session promise, stop and drop the
media-stream tracks, stop every queued source and clear the set, close
both audio contexts if open, flip `isSessionActive` off and return to
`'idle'`.  It does not touch `nextStartTimeRef`, `isNewTurnRef` or the
transcript. -/
def stopConversation (s : AgentState) : AgentState :=
  { s with hasSessionPromise := false
           hasMediaStream := false
           sources := []
           stoppedLog := s.stoppedLog ++ s.sources
           inputCtxOpen := false
           outputCtxOpen := false
           isSessionActive := false
           conversationState := .idle }

/-- `startConversation`, abstracted over whether `getUserMedia` succeeds
(`micOk`): after the synchronous prefix, success acquires the stream,
creates both audio contexts and the session promise; failure is caught
and runs `stopConversation`. -/
def startConversation (micOk : Bool) (s : AgentState) : AgentState :=
  let s1 := startInit s
  if micOk then
    { s1 with hasMediaStream := true
              inputCtxOpen := true
              outputCtxOpen := true
              hasSessionPromise := true }
  else
    stopConversation s1

/-- The states `startConversation` passes through, in order: the state
right after the synchronous prefix, then the final state. -/
def startTrace (micOk : Bool) (s : AgentState) : List AgentState :=
  [startInit s, startConversation micOk s]

/-- `handleToolSelect 'search'`: a no-op unless a session is active;
otherwise append a `'system'` notice directly to the transcript. -/
def handleToolSelect (ts : String) (s : AgentState) : AgentState :=
  if s.isSessionActive then
    { s with transcript :=
        s.transcript ++ [⟨.system, "Using Web Search tool...", ts⟩] }
  else s

/-- The `ai.live.connect` config assembled in `startConversation`:
audio response modality, and both input and output audio transcription
requested. -/
structure LiveConnectConfig where
  responseModalityAudio : Bool
  inputAudioTranscription : Bool
  outputAudioTranscription : Bool
deriving DecidableEq, Repr

/-- The session configuration literal from `startConversation`. -/
def sessionConfig : LiveConnectConfig :=
  { responseModalityAudio := true
    inputAudioTranscription := true
    outputAudioTranscription := true }

/-! ### Capture pipeline -/

/-- Truncation toward zero, the rounding mode of JavaScript's
`ToIntegerOrInfinity`. -/
def truncQ (x : ℚ) : ℤ :=
  if 0 ≤ x then ⌊x⌋ else ⌈x⌉

/-- Storing an integer into an `Int16Array` slot: reduce modulo 2^16 and
reinterpret the low 16 bits as a signed value (JavaScript `ToInt16`). -/
def wrap16 (n : ℤ) : ℤ :=
  let m := n % 65536
  if m < 32768 then m else m - 65536

/-- The per-sample conversion of `onaudioprocess`:
`new Int16Array(inputData.map(f => f * 32768))` — scale the float sample
by 32768, truncate toward zero, and store into a 16-bit signed slot. -/
def toInt16 (x : ℚ) : ℤ :=
  wrap16 (truncQ (x * 32768))

/-- Converting one captured frame to the PCM16 payload of the outbound
blob. -/
def pcmEncode (frame : List ℚ) : List ℤ :=
  frame.map toInt16

/-- The state of `sessionPromiseRef.current` as seen by
`onaudioprocess`: null, a pending promise, or a resolved session. -/
inductive ConnPhase where
  | noSession
  | pending
  | connected
deriving DecidableEq, Repr

/-- The capture-side state: the connection phase, the send callbacks
queued on the still-pending promise (in `.then` registration order), and
the chunks already handed to `session.sendRealtimeInput`. -/
structure CaptureState where
  conn : ConnPhase
  queued : List (List ℤ)
  sent : List (List ℤ)
deriving DecidableEq, Repr

/-- The `onaudioprocess` handler:
`sessionPromiseRef.current?.then(session => session.sendRealtimeInput({ media: pcmBlob }))`.
With no promise the optional chain is a no-op and the frame is silently
discarded; with a pending promise the send is queued as a `.then`
callback; with a resolved session the chunk is sent. -/
def onaudioprocess (frame : List ℚ) (c : CaptureState) : CaptureState :=
  match c.conn with
  | .noSession => c
  | .pending => { c with queued := c.queued ++ [pcmEncode frame] }
  | .connected => { c with sent := c.sent ++ [pcmEncode frame] }

/-- Resolution of the session promise: every queued `.then` callback
fires in registration order, sending its chunk. -/
def resolveSession (c : CaptureState) : CaptureState :=
  match c.conn with
  | .pending => { conn := .connected, queued := [], sent := c.sent ++ c.queued }
  | _ => c

/-- A capture state whose session promise is pending and which has sent
nothing yet. -/
def capPending : CaptureState :=
  { conn := .pending, queued := [], sent := [] }

/-- The component state right after a successful `startConversation`:
session active, listening, stream and contexts acquired. -/
def liveReady : AgentState := startConversation true init0

/-- A mid-playback state: two sources queued, `nextStartTime` at 3
seconds, session speaking. -/
def sActive : AgentState :=
  { liveReady with
      conversationState := .speaking
      nextStartTime := 3
      sources := [⟨0, 1⟩, ⟨1, 2⟩]
      scheduledLog := [⟨0, 1⟩, ⟨1, 2⟩] }

/-! ## Basic step lemmas -/

theorem step_audio (s : AgentState) (c d : ℚ) :
    step s (.audioChunk c d) = scheduleChunk c d s := rfl

theorem step_delta (s : AgentState) (txt ts : String) :
    step s (.transcriptDelta txt ts) = appendDelta txt ts s := rfl

theorem step_interrupted (s : AgentState) (c : ℚ) :
    step s (.interrupted c) = handleInterrupted s := rfl

theorem step_turnComplete (s : AgentState) :
    step s .turnComplete = handleTurnComplete s := rfl

theorem scheduleChunk_open (t d : ℚ) (s : AgentState) (ho : s.outputCtxOpen = true) :
    scheduleChunk t d s =
      { s with conversationState := .speaking
               nextStartTime := max s.nextStartTime t + d
               sources := s.sources ++ [{ start := max s.nextStartTime t, duration := d }]
               scheduledLog :=
                 s.scheduledLog ++ [{ start := max s.nextStartTime t, duration := d }] } := by
  simp [scheduleChunk, ho]

/-- Whether a server event is an interruption. -/
def ServerEvent.isInterrupt : ServerEvent → Bool
  | .interrupted _ => true
  | _ => false

/-- The audio chunks (handling-time clock, duration) of an event
sequence, in arrival order. -/
def audioChunksOf : List ServerEvent → List (ℚ × ℚ)
  | [] => []
  | .audioChunk c d :: rest => (c, d) :: audioChunksOf rest
  | .transcriptDelta _ _ :: rest => audioChunksOf rest
  | .interrupted _ :: rest => audioChunksOf rest
  | .turnComplete :: rest => audioChunksOf rest

/-- A transcript delta touches neither the scheduler clock, the schedule
log, nor the output context. -/
theorem appendDelta_scheduler (txt ts : String) (s : AgentState) :
    (appendDelta txt ts s).nextStartTime = s.nextStartTime ∧
    (appendDelta txt ts s).scheduledLog = s.scheduledLog ∧
    (appendDelta txt ts s).outputCtxOpen = s.outputCtxOpen := by
  rw [appendDelta]
  split
  · exact ⟨rfl, rfl, rfl⟩
  · split
    · split
      · exact ⟨rfl, rfl, rfl⟩
      · exact ⟨rfl, rfl, rfl⟩
    · exact ⟨rfl, rfl, rfl⟩

/-- Running any interrupt-free event sequence appends exactly the
handles of the pure scheduling recurrence, applied to the sequence's
audio chunks, to the schedule log — the recurrence starting at the
current `nextStartTime`. -/
theorem run_scheduledLog_of_noInterrupt (es : List ServerEvent) :
    ∀ s : AgentState, s.outputCtxOpen = true →
      (∀ e ∈ es, e.isInterrupt = false) →
      (run s es).scheduledLog
        = s.scheduledLog ++ scheduleStarts s.nextStartTime (audioChunksOf es) := by
  induction es with
  | nil => intro s _ _; simp [run, audioChunksOf, scheduleStarts]
  | cons e rest ih =>
      intro s ho hni
      have hrest : ∀ x ∈ rest, x.isInterrupt = false :=
        fun x hx => hni x (List.mem_cons_of_mem _ hx)
      cases e with
      | audioChunk c d =>
          have hrun : run s (ServerEvent.audioChunk c d :: rest)
              = run (scheduleChunk c d s) rest := by
            simp [run, step_audio]
          rw [hrun, ih _ (by rw [scheduleChunk_open c d s ho]; exact ho) hrest,
            scheduleChunk_open c d s ho]
          simp [audioChunksOf, scheduleStarts]
      | transcriptDelta txt ts =>
          have hrun : run s (ServerEvent.transcriptDelta txt ts :: rest)
              = run (appendDelta txt ts s) rest := by
            simp [run, step_delta]
          obtain ⟨h1, h2, h3⟩ := appendDelta_scheduler txt ts s
          rw [hrun, ih _ (by rw [h3]; exact ho) hrest, h1, h2]
          simp [audioChunksOf]
      | interrupted c =>
          have := hni _ (List.mem_cons_self _ _)
          simp [ServerEvent.isInterrupt] at this
      | turnComplete =>
          have hrun : run s (ServerEvent.turnComplete :: rest)
              = run (handleTurnComplete s) rest := by
            simp [run, step_turnComplete]
          rw [hrun, ih (handleTurnComplete s) ho hrest]
          simp [audioChunksOf, handleTurnComplete]

/-- Every handle produced by the scheduling recurrence starts no earlier
than the `nextStartTime` the recurrence began with, provided durations
are nonnegative. -/
theorem scheduleStarts_start_ge (chunks : List (ℚ × ℚ)) :
    ∀ nst : ℚ, (∀ p ∈ chunks, 0 ≤ p.2) →
      ∀ h ∈ scheduleStarts nst chunks, nst ≤ h.start := by
  induction chunks with
  | nil => intro nst _ h hh; simp [scheduleStarts] at hh
  | cons p rest ih =>
      intro nst hd h hh
      rw [scheduleStarts] at hh
      rcases List.mem_cons.mp hh with rfl | hh
      · exact le_max_left _ _
      · have h2 := ih (max nst p.1 + p.2)
          (fun q hq => hd q (List.mem_cons_of_mem _ hq)) h hh
        have hd0 : 0 ≤ p.2 := hd p (List.mem_cons_self _ _)
        have h3 : nst ≤ max nst p.1 + p.2 :=
          le_add_of_le_of_nonneg (le_max_left _ _) hd0
        linarith

/-- The handles produced by the scheduling recurrence are pairwise
non-overlapping: each starts no earlier than the previous one's end. -/
theorem scheduleStarts_pairwise (chunks : List (ℚ × ℚ)) :
    ∀ nst : ℚ, (∀ p ∈ chunks, 0 ≤ p.2) →
      List.Pairwise (fun h1 h2 => h1.start + h1.duration ≤ h2.start)
        (scheduleStarts nst chunks) := by
  induction chunks with
  | nil => intro nst _; simp [scheduleStarts]
  | cons p rest ih =>
      intro nst hd
      rw [scheduleStarts]
      refine List.Pairwise.cons ?_ (ih _ fun q hq => hd q (List.mem_cons_of_mem _ hq))
      intro h hh
      exact scheduleStarts_start_ge rest (max nst p.1 + p.2)
        (fun q hq => hd q (List.mem_cons_of_mem _ hq)) h hh

/-! ## C1 — no overlap, no reordering -/

/-- C1: along any event sequence containing no interruption, any two
handles h1 scheduled before h2 satisfy
`start h2 ≥ start h1 + duration h1` (chunk durations being
nonnegative): the portion of the schedule log appended by the sequence
is pairwise ordered, each handle's end no later than every later
handle's start — no overlap and no reordering. -/
theorem scheduled_no_overlap (s : AgentState) (es : List ServerEvent)
    (ho : s.outputCtxOpen = true)
    (hni : ∀ e ∈ es, e.isInterrupt = false)
    (hd : ∀ p ∈ audioChunksOf es, 0 ≤ p.2) :
    List.Pairwise (fun h1 h2 => h1.start + h1.duration ≤ h2.start)
      ((run s es).scheduledLog.drop s.scheduledLog.length) := by
  rw [run_scheduledLog_of_noInterrupt es s ho hni, List.drop_left]
  exact scheduleStarts_pairwise (audioChunksOf es) s.nextStartTime hd

/-- Witness for C1 at a concrete sequence of two chunks with an
intervening transcript delta, from a fresh session. -/
theorem scheduled_no_overlap_wit :
    liveReady.outputCtxOpen = true ∧
    (∀ e ∈ ([.audioChunk 0 1, .transcriptDelta "a" "t",
        .audioChunk (1/5) (1/2)] : List ServerEvent), e.isInterrupt = false) ∧
    (∀ p ∈ audioChunksOf [.audioChunk 0 1, .transcriptDelta "a" "t",
        .audioChunk (1/5) (1/2)], 0 ≤ p.2) ∧
    List.Pairwise (fun h1 h2 => h1.start + h1.duration ≤ h2.start)
      ((run liveReady [.audioChunk 0 1, .transcriptDelta "a" "t",
          .audioChunk (1/5) (1/2)]).scheduledLog.drop
        liveReady.scheduledLog.length) := by
  have hni : ∀ e ∈ ([.audioChunk 0 1, .transcriptDelta "a" "t",
      .audioChunk (1/5) (1/2)] : List ServerEvent), e.isInterrupt = false := by
    rintro e he
    rcases List.mem_cons.mp he with rfl | he
    · rfl
    · rcases List.mem_cons.mp he with rfl | he
      · rfl
      · rcases List.mem_cons.mp he with rfl | he
        · rfl
        · simp at he
  have hd : ∀ p ∈ audioChunksOf [.audioChunk 0 1, .transcriptDelta "a" "t",
      .audioChunk (1/5) (1/2)], 0 ≤ p.2 := by
    rintro p hp
    simp only [audioChunksOf] at hp
    rcases List.mem_cons.mp hp with rfl | hp
    · norm_num
    · rcases List.mem_cons.mp hp with rfl | hp
      · norm_num
      · simp at hp
  exact ⟨rfl, hni, hd, scheduled_no_overlap liveReady _ rfl hni hd⟩

/-! ## C2 — the scheduling rule and Scenario A -/

/-- C2: each audio chunk is scheduled at `max nextStartTime clock` and
`nextStartTime` then advances to that start plus the duration; on the
concrete Scenario A (durations 1, 1/2, 4/5 arriving at clocks 0, 1/5,
8/5 in a fresh session) the starts are 0, 1, 8/5 and the final
`nextStartTime` is 12/5. -/
theorem chunk_scheduling_rule :
    (∀ (s : AgentState) (t d : ℚ), s.outputCtxOpen = true →
        (step s (.audioChunk t d)).nextStartTime = max s.nextStartTime t + d ∧
        (step s (.audioChunk t d)).scheduledLog
          = s.scheduledLog ++ [{ start := max s.nextStartTime t, duration := d }] ∧
        (step s (.audioChunk t d)).sources
          = s.sources ++ [{ start := max s.nextStartTime t, duration := d }]) ∧
    (run liveReady [.audioChunk 0 1, .audioChunk (1/5) (1/2),
        .audioChunk (8/5) (4/5)]).scheduledLog.map PlaybackHandle.start = [0, 1, 8/5] ∧
    (run liveReady [.audioChunk 0 1, .audioChunk (1/5) (1/2),
        .audioChunk (8/5) (4/5)]).nextStartTime = 12/5 := by
  refine ⟨fun s t d ho => ?_, ?_, ?_⟩
  · rw [step_audio, scheduleChunk_open t d s ho]
    exact ⟨rfl, rfl, rfl⟩
  all_goals
    norm_num [run, step, onmessage, ServerEvent.toMessage, scheduleChunk,
      liveReady, startConversation, startInit, init0, max_def]

/-- Witness for C2's universally quantified part at a concrete state. -/
theorem chunk_scheduling_rule_wit :
    (step liveReady (.audioChunk 5 2)).nextStartTime = max liveReady.nextStartTime 5 + 2 :=
  (chunk_scheduling_rule.1 liveReady 5 2 rfl).1

/-! ## C3 — interruption -/

/-- C3 counterexample: with the output clock at 5 seconds, an
interruption resets `nextStartTime` to 0, not to the current clock time
5 as the claim states. -/
theorem interrupted_reset_cex :
    (step sActive (.interrupted 5)).nextStartTime = 0 ∧
    (step sActive (.interrupted 5)).nextStartTime ≠ 5 := by
  have h : (step sActive (.interrupted 5)).nextStartTime = 0 := rfl
  rw [h]
  norm_num

/-- C3 amended: an interruption force-stops every queued source, clears
the active set, resets `nextStartTime` to zero and returns to listening;
because the next chunk is scheduled at `max nextStartTime clock`, the
next chunk after the interruption still starts exactly at the (nonnegative)
current clock time rather than behind stale scheduling. -/
theorem interrupted_clears_state (s : AgentState) (c t d : ℚ)
    (ho : s.outputCtxOpen = true) (ht : 0 ≤ t) :
    (step s (.interrupted c)).sources = [] ∧
    (step s (.interrupted c)).stoppedLog = s.stoppedLog ++ s.sources ∧
    (step s (.interrupted c)).nextStartTime = 0 ∧
    (step s (.interrupted c)).conversationState = .listening ∧
    (step (step s (.interrupted c)) (.audioChunk t d)).scheduledLog
      = s.scheduledLog ++ [{ start := t, duration := d }] := by
  refine ⟨rfl, rfl, rfl, rfl, ?_⟩
  rw [step_interrupted, step_audio, scheduleChunk_open t d (handleInterrupted s)
      (by simpa [handleInterrupted] using ho)]
  simp [handleInterrupted, max_eq_right ht]

/-- Witness for C3's amended theorem at a concrete mid-playback state. -/
theorem interrupted_clears_state_wit :
    (step (step sActive (.interrupted 5)) (.audioChunk 5 2)).scheduledLog
      = sActive.scheduledLog ++ [{ start := 5, duration := 2 }] :=
  (interrupted_clears_state sActive 5 5 2 rfl (by norm_num)).2.2.2.2

/-! ## Transcript lemmas -/

theorem join_cons (a : String) (l : List String) :
    String.join (a :: l) = a ++ String.join l := by
  apply String.ext
  simp [String.data_join]

theorem appendDelta_of_newTurn (txt ts : String) (s : AgentState)
    (h : s.isNewTurn = true) :
    appendDelta txt ts s =
      { s with isNewTurn := false
               transcript := s.transcript ++ [⟨.model, txt, ts⟩] } := by
  simp [appendDelta, h]

/-- Merging: with the turn flag clear and a model entry last, a delta
extends that entry in place. -/
theorem appendDelta_of_merge (txt ts : String) (s : AgentState)
    (pre : List LiveTranscriptEntry) (acc ts0 : String)
    (hn : s.isNewTurn = false) (ht : s.transcript = pre ++ [⟨.model, acc, ts0⟩]) :
    appendDelta txt ts s =
      { s with transcript := pre ++ [⟨.model, acc ++ txt, ts0⟩] } := by
  simp [appendDelta, hn, ht, List.getLast?_concat, List.dropLast_concat]

/-- After the turn flag is cleared, a run of deltas folds its texts, in
order, onto the last (model) entry, and the flag stays clear. -/
theorem run_deltas_merge (ds : List (String × String)) :
    ∀ (s : AgentState) (pre : List LiveTranscriptEntry) (acc ts0 : String),
      s.isNewTurn = false →
      s.transcript = pre ++ [⟨.model, acc, ts0⟩] →
      (run s (ds.map fun p => ServerEvent.transcriptDelta p.1 p.2)).transcript
          = pre ++ [⟨.model, acc ++ String.join (ds.map Prod.fst), ts0⟩] ∧
      (run s (ds.map fun p => ServerEvent.transcriptDelta p.1 p.2)).isNewTurn = false := by
  induction ds with
  | nil =>
      intro s pre acc ts0 hn ht
      refine ⟨?_, by simpa [run] using hn⟩
      simpa [run, String.join] using ht
  | cons d rest ih =>
      intro s pre acc ts0 hn ht
      have hstep : run s ((d :: rest).map fun p => ServerEvent.transcriptDelta p.1 p.2)
          = run (appendDelta d.1 d.2 s)
              (rest.map fun p => ServerEvent.transcriptDelta p.1 p.2) := by
        simp [run, step_delta]
      rw [hstep, appendDelta_of_merge d.1 d.2 s pre acc ts0 hn ht]
      obtain ⟨h1, h2⟩ := ih { s with transcript := pre ++ [⟨.model, acc ++ d.1, ts0⟩] }
        pre (acc ++ d.1) ts0 (by simpa using hn) (by simp)
      refine ⟨?_, h2⟩
      rw [h1]
      simp [join_cons, String.append_assoc]

/-! ## C4 — transcript merge law -/

/-- C4: from a turn boundary, a nonempty run of consecutive transcript
deltas (all for the model speaker, with no intervening turn completion)
produces exactly one new transcript entry, whose text is the
concatenation of the deltas' texts in arrival order (and whose timestamp
is the first delta's). -/
theorem transcript_merge_law (s : AgentState) (ds : List (String × String))
    (hturn : s.isNewTurn = true) (hne : ds ≠ []) :
    (run s (ds.map fun p => ServerEvent.transcriptDelta p.1 p.2)).transcript
      = s.transcript ++
          [{ speaker := .model
             text := String.join (ds.map Prod.fst)
             timestamp := (ds.head hne).2 }] := by
  match ds, hne with
  | d :: rest, _ =>
    have hstep : run s ((d :: rest).map fun p => ServerEvent.transcriptDelta p.1 p.2)
        = run (appendDelta d.1 d.2 s)
            (rest.map fun p => ServerEvent.transcriptDelta p.1 p.2) := by
      simp [run, step_delta]
    rw [hstep, appendDelta_of_newTurn d.1 d.2 s hturn]
    obtain ⟨h1, _⟩ := run_deltas_merge rest
      { s with isNewTurn := false, transcript := s.transcript ++ [⟨.model, d.1, d.2⟩] }
      s.transcript d.1 d.2 rfl rfl
    rw [h1]
    simp [join_cons]

/-- Witness for C4 on a concrete two-delta run from a fresh session. -/
theorem transcript_merge_law_wit :
    (run liveReady ([(("Hel" : String), ("t1" : String)), (("lo", "t2"))].map
        fun p => ServerEvent.transcriptDelta p.1 p.2)).transcript
      = liveReady.transcript ++
          [{ speaker := .model
             text := String.join ["Hel", "lo"]
             timestamp := "t1" }] :=
  transcript_merge_law liveReady [("Hel", "t1"), ("lo", "t2")] rfl (by simp)

/-! ## C5 — turn boundary law -/

/-- C5: a turn-completion event creates no transcript entry, and the
next transcript delta after it always starts a fresh entry, even though
the previous entry has the same (model) speaker. -/
theorem turn_boundary_law (s : AgentState) (txt ts : String) :
    (step s .turnComplete).transcript = s.transcript ∧
    (step (step s .turnComplete) (.transcriptDelta txt ts)).transcript
      = s.transcript ++ [{ speaker := .model, text := txt, timestamp := ts }] := by
  refine ⟨rfl, ?_⟩
  rw [step_turnComplete, step_delta]
  simp [appendDelta, handleTurnComplete]

/-! ## C6 — microphone failure during start -/

/-- C6 counterexample: in the run of `startConversation` in which the
microphone acquisition fails, the component still passes through the
`'listening'` state — `conversationState` is set optimistically before
the microphone is requested — so the failing session does enter
Listening (before being torn down to idle). -/
theorem start_mic_failure_cex :
    ConvState.listening ∈ (startTrace false init0).map AgentState.conversationState ∧
    (startConversation false init0).conversationState = ConvState.idle := by
  refine ⟨?_, rfl⟩
  simp [startTrace, startInit]

/-- C6 amended: microphone failure is fatal to `startConversation`: the
error path runs `stopConversation`, leaving the session inactive and
idle with no stream, session promise, audio context or queued source —
no partial session survives — but the state does transiently enter
`'listening'`, which is set before the microphone is requested and
undone by the cleanup. -/
theorem start_mic_failure (s : AgentState) :
    (startConversation false s).isSessionActive = false ∧
    (startConversation false s).conversationState = ConvState.idle ∧
    (startConversation false s).hasMediaStream = false ∧
    (startConversation false s).hasSessionPromise = false ∧
    (startConversation false s).inputCtxOpen = false ∧
    (startConversation false s).outputCtxOpen = false ∧
    (startConversation false s).sources = [] ∧
    ConvState.listening ∈ (startTrace false s).map AgentState.conversationState := by
  refine ⟨rfl, rfl, rfl, rfl, rfl, rfl, rfl, ?_⟩
  simp [startTrace, startInit]

/-! ## C9 — idempotent stop -/

/-- C9 counterexample: `stopConversation` does not reset the scheduler
or turn state: from a state with `nextStartTime = 3` and the turn flag
clear, both survive the stop (and a second stop) unchanged, instead of
returning to their initial values 0 and true. -/
theorem stop_no_reset_cex :
    (stopConversation { sActive with isNewTurn := false }).nextStartTime = 3 ∧
    (stopConversation { sActive with isNewTurn := false }).nextStartTime ≠ 0 ∧
    (stopConversation { sActive with isNewTurn := false }).isNewTurn = false ∧
    (stopConversation (stopConversation { sActive with isNewTurn := false })).nextStartTime
      = 3 := by
  have h : (stopConversation { sActive with isNewTurn := false }).nextStartTime = 3 := rfl
  refine ⟨h, ?_, rfl, rfl⟩
  rw [h]
  norm_num

/-- C9 amended: `stopConversation` is total (produces no error from any
state) and idempotent; after each call the microphone and session are
released, every queued source is force-stopped and the set cleared, and
the session is inactive and idle — but the scheduler state
(`nextStartTime`) and turn state (`isNewTurn`) are left untouched; they
are reset by the next `startConversation`, not by stop. -/
theorem stop_idempotent (s : AgentState) :
    stopConversation (stopConversation s) = stopConversation s ∧
    (stopConversation s).hasMediaStream = false ∧
    (stopConversation s).hasSessionPromise = false ∧
    (stopConversation s).sources = [] ∧
    (stopConversation s).isSessionActive = false ∧
    (stopConversation s).conversationState = ConvState.idle ∧
    (stopConversation s).stoppedLog = s.stoppedLog ++ s.sources ∧
    (stopConversation s).nextStartTime = s.nextStartTime ∧
    (stopConversation s).isNewTurn = s.isNewTurn ∧
    (startConversation true (stopConversation s)).nextStartTime = 0 ∧
    (startConversation true (stopConversation s)).isNewTurn = true := by
  refine ⟨?_, rfl, rfl, rfl, rfl, rfl, rfl, rfl, rfl, rfl, rfl⟩
  simp [stopConversation]

/-! ## C7 — frames before the transport is connected -/

/-- C7 counterexample: a frame captured while the session promise is
still pending is not dropped: the send is queued as a `.then` callback
on the promise and the chunk is delivered when the promise resolves. -/
theorem frame_queued_cex :
    (onaudioprocess [0] capPending).queued = [pcmEncode [0]] ∧
    (onaudioprocess [0] capPending).queued ≠ [] ∧
    (resolveSession (onaudioprocess [0] capPending)).sent = [pcmEncode [0]] := by
  have h : (onaudioprocess [0] capPending).queued = [pcmEncode [0]] := rfl
  refine ⟨h, ?_, rfl⟩
  rw [h]
  simp

/-- C7 amended: a frame captured when no session promise exists is
silently discarded, with no dropped-frame counter anywhere in the state;
a frame captured while the connection is still pending is queued on the
promise and is sent, in order, once the connection resolves; a frame
captured after resolution is sent immediately. -/
theorem frame_send_policy (c : CaptureState) (frame : List ℚ) :
    (c.conn = ConnPhase.noSession → onaudioprocess frame c = c) ∧
    (c.conn = ConnPhase.pending →
        (onaudioprocess frame c).queued = c.queued ++ [pcmEncode frame] ∧
        (onaudioprocess frame c).sent = c.sent ∧
        (resolveSession (onaudioprocess frame c)).sent
          = c.sent ++ c.queued ++ [pcmEncode frame]) ∧
    (c.conn = ConnPhase.connected →
        (onaudioprocess frame c).sent = c.sent ++ [pcmEncode frame]) := by
  obtain ⟨conn, q, snt⟩ := c
  refine ⟨fun h => ?_, fun h => ?_, fun h => ?_⟩ <;>
    subst h <;>
    simp [onaudioprocess, resolveSession, List.append_assoc]

/-- Witness for C7's amended policy at the pending capture state. -/
theorem frame_send_policy_wit :
    (onaudioprocess [0] capPending).queued = capPending.queued ++ [pcmEncode [0]] :=
  ((frame_send_policy capPending [0]).2.1 rfl).1

/-! ## C8 — PCM16 conversion -/

theorem wrap16_eq_self (n : ℤ) (h1 : -32768 ≤ n) (h2 : n ≤ 32767) :
    wrap16 n = n := by
  simp only [wrap16]
  split <;> omega

theorem truncQ_bounds (y : ℚ) (h1 : -32768 ≤ y) (h2 : y < 32768) :
    -32768 ≤ truncQ y ∧ truncQ y ≤ 32767 := by
  rw [truncQ]
  split
  case isTrue h =>
    have hf0 : (0 : ℤ) ≤ ⌊y⌋ := Int.floor_nonneg.mpr h
    have hfu : ⌊y⌋ < 32768 := by
      rw [Int.floor_lt]
      exact_mod_cast h2
    omega
  case isFalse h =>
    push_neg at h
    have hcl : (-32768 : ℤ) ≤ ⌈y⌉ := by
      have : ((-32768 : ℤ) : ℚ) ≤ (⌈y⌉ : ℚ) := le_trans (by exact_mod_cast h1) (Int.le_ceil y)
      exact_mod_cast this
    have hcu : ⌈y⌉ ≤ 0 := by
      rw [Int.ceil_le]
      exact_mod_cast le_of_lt h
    omega

/-- C8 evaluation: at the full-scale sample 1.0, the conversion
`f => f * 32768` stored into an `Int16Array` wraps: the scaled value
32768 exceeds the signed 16-bit range and is stored as -32768.  For
every sample in [-1, 1) the conversion does not wrap and lands in
[-32768, 32767]. -/
theorem pcm_conversion_wraps :
    toInt16 1 = -32768 ∧
    truncQ ((1 : ℚ) * 32768) = 32768 ∧
    (∀ x : ℚ, -1 ≤ x → x < 1 →
        toInt16 x = truncQ (x * 32768) ∧
        -32768 ≤ toInt16 x ∧ toInt16 x ≤ 32767) := by
  have hq : ((1 : ℚ) * 32768) = ((32768 : ℤ) : ℚ) := by norm_num
  have htr : truncQ ((1 : ℚ) * 32768) = 32768 := by
    rw [truncQ, if_pos (by rw [hq]; positivity), hq, Int.floor_intCast]
  refine ⟨?_, htr, fun x hl hu => ?_⟩
  · rw [toInt16, htr]
    decide
  · have hyl : (-32768 : ℚ) ≤ x * 32768 := by linarith
    have hyu : x * 32768 < 32768 := by linarith
    obtain ⟨hb1, hb2⟩ := truncQ_bounds (x * 32768) hyl hyu
    have hw := wrap16_eq_self (truncQ (x * 32768)) hb1 hb2
    rw [toInt16, hw]
    exact ⟨rfl, hb1, hb2⟩

/-- Witness for the non-wrapping part of the C8 evaluation at the
half-scale sample 1/2. -/
theorem pcm_conversion_wraps_wit :
    toInt16 (1/2) = truncQ ((1/2 : ℚ) * 32768) :=
  (pcm_conversion_wraps.2.2 (1/2) (by norm_num) (by norm_num)).1

/-! ## C10 — only model entries from server events -/

theorem scheduleChunk_transcript (t d : ℚ) (s : AgentState) :
    (scheduleChunk t d s).transcript = s.transcript := by
  simp only [scheduleChunk]
  split <;> rfl

/-- Every entry of the transcript after a delta is either an entry that
was already there or carries the model speaker (the merged entry keeps
the model speaker of the entry it merged into). -/
theorem appendDelta_mem (txt ts : String) (s : AgentState) :
    ∀ e ∈ (appendDelta txt ts s).transcript,
      e ∈ s.transcript ∨ e.speaker = Speaker.model := by
  intro e he
  by_cases hn : s.isNewTurn = true
  · simp [appendDelta, hn] at he
    rcases he with he | rfl
    · exact Or.inl he
    · exact Or.inr rfl
  · rcases hlast : s.transcript.getLast? with _ | last
    · simp [appendDelta, hn, hlast] at he
      rcases he with he | rfl
      · exact Or.inl he
      · exact Or.inr rfl
    · by_cases hsp : last.speaker = Speaker.model
      · simp [appendDelta, hn, hlast, hsp] at he
        rcases he with he | rfl
        · exact Or.inl ((List.dropLast_sublist s.transcript).subset he)
        · exact Or.inr rfl
      · simp [appendDelta, hn, hlast, hsp] at he
        rcases he with he | rfl
        · exact Or.inl he
        · exact Or.inr rfl

theorem mem_model_trans {s s' s'' : AgentState}
    (h1 : ∀ e ∈ s''.transcript, e ∈ s'.transcript ∨ e.speaker = Speaker.model)
    (h2 : ∀ e ∈ s'.transcript, e ∈ s.transcript ∨ e.speaker = Speaker.model) :
    ∀ e ∈ s''.transcript, e ∈ s.transcript ∨ e.speaker = Speaker.model :=
  fun e he => (h1 e he).elim (fun h => h2 e h) Or.inr

theorem mem_of_transcript_eq {s s' : AgentState} (h : s'.transcript = s.transcript) :
    ∀ e ∈ s'.transcript, e ∈ s.transcript ∨ e.speaker = Speaker.model :=
  fun e he => Or.inl (h ▸ he)

/-- The message handler only ever adds model-speaker text: every
transcript entry after `onmessage` was already present or has the model
speaker. -/
theorem onmessage_mem (m : ServerMessage) (s : AgentState) :
    ∀ e ∈ (onmessage m s).transcript, e ∈ s.transcript ∨ e.speaker = Speaker.model := by
  obtain ⟨c, ad, ot, it, ib, tb⟩ := m
  show ∀ e ∈ (onmessage ⟨c, ad, ot, it, ib, tb⟩ s).transcript, _
  rw [onmessage]
  rcases ad with _ | d <;> rcases ot with _ | p <;> rcases ib <;> rcases tb <;>
    simp only [handleInterrupted, handleTurnComplete, if_true, if_false,
      Bool.false_eq_true, ite_true, ite_false] <;>
    first
      | exact mem_of_transcript_eq rfl
      | exact appendDelta_mem p.1 p.2 s
      | exact mem_model_trans (mem_of_transcript_eq (scheduleChunk_transcript c d s))
          (fun e he => Or.inl he)
      | exact mem_model_trans (appendDelta_mem p.1 p.2 (scheduleChunk c d s))
          (mem_of_transcript_eq (scheduleChunk_transcript c d s))

/-- A message with no output transcription (in particular one carrying
only an input/user transcription) leaves the transcript untouched. -/
theorem onmessage_transcript_of_none (m : ServerMessage) (s : AgentState)
    (h : m.outputTranscription = none) :
    (onmessage m s).transcript = s.transcript := by
  obtain ⟨c, ad, ot, it, ib, tb⟩ := m
  subst h
  rw [onmessage]
  rcases ad with _ | d <;> rcases ib <;> rcases tb <;>
    simp [handleInterrupted, handleTurnComplete, scheduleChunk_transcript]

/-- C10: every transcript entry created by the server-message handler
has the model speaker; a message carrying only an input (user)
transcription — which the session configuration requests but the
handler never reads — creates no entry at all; and the only non-model
entries are system notices appended directly by the tool-selection
handler. -/
theorem server_entries_are_model (s : AgentState) (m : ServerMessage) (ts : String) :
    (∀ e ∈ (onmessage m s).transcript, e ∈ s.transcript ∨ e.speaker = Speaker.model) ∧
    (m.outputTranscription = none → (onmessage m s).transcript = s.transcript) ∧
    sessionConfig.inputAudioTranscription = true ∧
    (∀ e ∈ (handleToolSelect ts s).transcript,
        e ∈ s.transcript ∨ e.speaker = Speaker.system) := by
  refine ⟨onmessage_mem m s, onmessage_transcript_of_none m s, rfl, ?_⟩
  intro e he
  by_cases ha : s.isSessionActive = true
  · simp [handleToolSelect, ha] at he
    rcases he with he | rfl
    · exact Or.inl he
    · exact Or.inr rfl
  · simp [handleToolSelect, ha] at he
    exact Or.inl he

/-- A server message carrying only an input (user) transcription
delta. -/
def userOnlyMsg : ServerMessage where
  clock := 0
  audioDuration := none
  outputTranscription := none
  inputTranscription := some "hello"
  interrupted := false
  turnComplete := false

/-- Witness for C10: a message carrying only a user transcription delta
leaves a fresh session's transcript unchanged. -/
theorem server_entries_are_model_wit :
    (onmessage userOnlyMsg liveReady).transcript = liveReady.transcript :=
  (server_entries_are_model liveReady userOnlyMsg "t").2.1 rfl

end W3J
